import Mathlib

/-!
Shallow embedding of the hotkey dispatch and chord-matching engine of the
`stream-animate` repository: `src/stream_companion/hotkeys.py` (the chorded
variant) and `stream_animate/hotkeys.py` (the plain variant).

Python `dict`s are modelled as insertion-ordered association lists,
exceptions as `Option PyErr` results threaded explicitly, callbacks as
values carrying an identifier and a flag saying whether invoking them
raises, and wall-clock time as integer milliseconds.
-/

/-- A raw key as delivered by the OS listener.  Models pynput's
`keyboard.Key` (named special keys, including pure modifiers such as
`ctrl`) and `keyboard.KeyCode` carrying a character. -/
inductive Key where
  | special (name : String)
  | char (c : Char)
deriving DecidableEq

/-- A user-supplied zero-argument callback: an identity plus whether
invoking it raises an exception. -/
structure Callback where
  id : Nat
  raises : Bool
deriving DecidableEq

/-- Invoking a user callback either returns normally or raises. -/
def runUser (c : Callback) : Except Unit Unit :=
  if c.raises then .error () else .ok ()

/-- Python exceptions surfaced by the registration API. -/
inductive PyErr where
  | valueError (msg : String)
deriving DecidableEq

/-- Observable effects accumulated along an execution: user callbacks
invoked (by id, in order) and the error-log entries written by the
`except`-blocks that catch raising callbacks. -/
structure Trace where
  invoked : List Nat
  errLogged : List String
deriving DecidableEq

def Trace.empty : Trace := ⟨[], []⟩

def Trace.append (t u : Trace) : Trace :=
  ⟨t.invoked ++ u.invoked, t.errLogged ++ u.errLogged⟩

/-- Modelled from pynput (third-party dependency, not part of this
repository): `keyboard.HotKey` holds the parsed key set of a combination
plus the subset currently pressed; on `press` of a member key it records
it and fires `on_activate` once the whole set is down, on `release` it
removes the key. -/
structure HotKey where
  keys : List Key
  pressed : List Key
deriving DecidableEq

/-- Modelled from pynput: `HotKey.press` — if the key belongs to the
combination, add it to the pressed set and report whether the whole
combination is now satisfied. -/
def HotKey.press (hk : HotKey) (k : Key) : HotKey × Bool :=
  if hk.keys.contains k then
    let pressed := if hk.pressed.contains k then hk.pressed else hk.pressed ++ [k]
    (⟨hk.keys, pressed⟩, hk.keys.all (fun x => pressed.contains x))
  else (hk, false)

/-- Modelled from pynput: `HotKey.release` removes the key from the
pressed set. -/
def HotKey.release (hk : HotKey) (k : Key) : HotKey :=
  ⟨hk.keys, hk.pressed.erase k⟩

/-- Python `combination.split("+")` at the character level (an empty
string yields one empty segment, like Python's `split`). -/
def splitOnPlus : List Char → List (List Char)
  | [] => [[]]
  | c :: rest =>
    let r := splitOnPlus rest
    if c = '+' then [] :: r
    else
      match r with
      | s :: ss => (c :: s) :: ss
      | [] => [[c]]

/-- Python `segment.strip()`: drop whitespace from both ends. -/
def stripChars (cs : List Char) : List Char :=
  ((cs.dropWhile Char.isWhitespace).reverse.dropWhile Char.isWhitespace).reverse

/-- Python `"+".join(parts)` at the character level. -/
def joinPlus : List (List Char) → List Char
  | [] => []
  | [s] => s
  | s :: rest => s ++ '+' :: joinPlus rest

/-- Python `s.lower()` at the character level. -/
def lowerChars (cs : List Char) : List Char := cs.map Char.toLower

/-- Python `"+".join(tokens)` on whole token strings (used in the log
message for a raising chord-sequence callback). -/
def joinTokens (ts : List String) : String :=
  ⟨joinPlus (ts.map String.toList)⟩

/-- `HotkeyManager._normalize_combination`: split on `+`, strip each
segment, rejoin with `+`, lowercase the result. -/
def _normalize_combination (combination : String) : String :=
  ⟨lowerChars (joinPlus ((splitOnPlus combination.toList).map stripChars))⟩

/-- Modelled from pynput's `HotKey.parse`: a segment `<name>` denotes a
special key, a single character denotes that character's key. -/
def parseSegment (s : List Char) : Key :=
  let t := stripChars s
  if t.head? = some '<' ∧ t.getLast? = some '>' then
    .special ⟨lowerChars (t.drop 1).dropLast⟩
  else
    match lowerChars t with
    | [c] => .char c
    | l => .special ⟨l⟩

/-- `HotkeyManager._default_hotkey_factory`: parse the combination and
build a fresh `HotKey` around it. -/
def _default_hotkey_factory (combination : String) : HotKey :=
  ⟨(splitOnPlus combination.toList).map parseSegment, []⟩

/-- The press/release discriminator fed to `_dispatch`. -/
inductive KeyAction where
  | press
  | release
deriving DecidableEq

/-- The named special keys that `_key_to_token` maps to tokens. -/
def specialTokens : List String :=
  ["esc", "space", "enter", "tab", "backspace", "delete", "up", "down",
   "left", "right", "home", "end", "pageup", "pagedown",
   "f1", "f2", "f3", "f4", "f5", "f6", "f7", "f8",
   "f9", "f10", "f11", "f12"]

/-- The punctuation characters `_key_to_token` accepts besides
alphanumerics. -/
def punctuationChars : List Char := ("-=`[];,\x27./\\").toList

namespace StreamCompanion

/-- A `_Binding` of `src/stream_companion/hotkeys.py`: the original
combination string, the stored callback, and the pynput `HotKey`.  The
callback is either a user callback or the closure `_arm_cb` installed by
`configure_chord_sequences` / `configure_chord`, which arms the chord
engine with the configured timeout. -/
inductive CB where
  | user (c : Callback)
  | armCb (timeoutMs : Int)
deriving DecidableEq

structure Binding where
  combination : String
  callback : CB
  hotkey : HotKey
deriving DecidableEq

/-- The mutable state of `stream_companion.HotkeyManager`.  `listener`
models whether `_listener` is not `None`; `armTimer` models the pending
`threading.Timer` as its absolute deadline in ms. -/
structure Manager where
  listener : Bool
  hotkeys : List (String × Binding)
  activatorCombo : Option String
  armed : Bool
  armTimer : Option Int
  armTimeoutMs : Int
  suffixSeqMap : List (List String × Callback)
  buffer : List String
  ignoreNext : Bool
deriving DecidableEq

/-- `HotkeyManager.__init__`. -/
def Manager.init : Manager :=
  { listener := false, hotkeys := [], activatorCombo := none,
    armed := false, armTimer := none, armTimeoutMs := 1500,
    suffixSeqMap := [], buffer := [], ignoreNext := false }

/-- `HotkeyManager.start`. -/
def start (m : Manager) : Manager × Bool :=
  if m.listener then (m, false) else ({ m with listener := true }, true)

/-- `HotkeyManager.stop`. -/
def stop (m : Manager) : Manager × Bool :=
  if m.listener then ({ m with listener := false }, true) else (m, false)

/-- `HotkeyManager.register_hotkey`.  Raises `ValueError` on an empty
combination or a duplicate canonical form; otherwise appends the new
binding (Python dicts append fresh keys in insertion order). -/
def register_hotkey (m : Manager) (combination : String) (cb : CB) :
    Manager × Option PyErr :=
  if combination = "" then
    (m, some (.valueError "Hotkey combination must be a non-empty string"))
  else
    let normalized := _normalize_combination combination
    if (m.hotkeys.lookup normalized).isSome then
      (m, some (.valueError ("Hotkey \x27" ++ combination ++ "\x27 already registered")))
    else
      ({ m with hotkeys :=
          m.hotkeys ++ [(normalized, ⟨combination, cb, _default_hotkey_factory combination⟩)] },
       none)

/-- `HotkeyManager.unregister_hotkey`. -/
def unregister_hotkey (m : Manager) (combination : String) : Manager × Bool :=
  let normalized := _normalize_combination combination
  if (m.hotkeys.lookup normalized).isSome then
    ({ m with hotkeys := m.hotkeys.filter (fun p => p.1 != normalized) }, true)
  else (m, false)

/-- `HotkeyManager._arm`: cancel any previous timer, arm, clear the
buffer, set the ignore flag, and start a timer for
`max(0.1, timeout_ms / 1000)` seconds (here: `max 100 timeoutMs` ms past
`now`). -/
def _arm (m : Manager) (now : Int) (timeoutMs : Int) : Manager :=
  { m with armed := true, buffer := [], ignoreNext := true,
           armTimer := some (now + max 100 timeoutMs) }

/-- `HotkeyManager._disarm`: cancel the timer, disarm, clear the buffer
and the ignore flag. -/
def _disarm (m : Manager) : Manager :=
  { m with armTimer := none, armed := false, buffer := [], ignoreNext := false }

/-- `HotkeyManager._execute_callback`: look the binding up by canonical
name; absent → `False`; present → invoke its callback, catching (and
logging with the binding's combination) any exception it raises, in
which case `False` is returned, else `True`. -/
def _execute_callback (m : Manager) (now : Int) (normalized : String) :
    Manager × Trace × Bool :=
  match m.hotkeys.lookup normalized with
  | none => (m, Trace.empty, false)
  | some b =>
    match b.callback with
    | .user c =>
      match runUser c with
      | .ok _ => (m, ⟨[c.id], []⟩, true)
      | .error _ => (m, ⟨[c.id], [b.combination]⟩, false)
    | .armCb t => (_arm m now t, Trace.empty, true)

/-- `HotkeyManager.trigger`. -/
def trigger (m : Manager) (now : Int) (combination : String) :
    Manager × Trace × Bool :=
  _execute_callback m now (_normalize_combination combination)

/-- `HotkeyManager.registered_combinations`. -/
def registered_combinations (m : Manager) : List String :=
  m.hotkeys.map (fun p => p.2.combination)

/-- `HotkeyManager.configure_chord_sequences`.  Note the source order:
`_activator_combo` is assigned before `register_hotkey` is called, and
the sequence map is replaced only after registration succeeds. -/
def configure_chord_sequences (m : Manager) (activator : String)
    (timeoutMs : Int) (seqMap : List (List String × Callback)) :
    Manager × Option PyErr :=
  if activator = "" then
    (m, some (.valueError "Activator hotkey must be a non-empty string"))
  else if seqMap = [] then
    (m, some (.valueError "Sequence map must not be empty"))
  else
    let m := { m with activatorCombo := some (_normalize_combination activator) }
    match register_hotkey m activator (.armCb timeoutMs) with
    | (m, some e) => (m, some e)
    | (m, none) =>
      ({ m with suffixSeqMap := seqMap, armTimeoutMs := max 100 timeoutMs }, none)

/-- `HotkeyManager._key_to_token`: named specials map to their token,
character keys lowercase and pass if alphanumeric or in the accepted
punctuation set, everything else (e.g. a bare modifier press) is
unmapped. -/
def _key_to_token (key : Key) : Option String :=
  match key with
  | .special name => if specialTokens.contains name then some name else none
  | .char c =>
    let c := c.toLower
    if c.isAlphanum || punctuationChars.contains c then
      some (String.mk [c])
    else none

/-- Replace the stored `HotKey` state of the binding registered under
`name` (pynput `HotKey` objects are mutated in place by
`press`/`release`; here the updated object is written back into the
table). -/
def setHotkeyState (m : Manager) (name : String) (hk : HotKey) : Manager :=
  { m with hotkeys :=
      m.hotkeys.map (fun p => if p.1 = name then (p.1, { p.2 with hotkey := hk }) else p) }

/-- One iteration of the binding loop in `HotkeyManager._dispatch`: feed
the canonical key to the binding's `HotKey`; when a press completes the
combination, pynput calls the registered `on_activate`, which is the
lambda `self._execute_callback(combo)` installed by `register_hotkey`. -/
def feedBinding (now : Int) (action : KeyAction) (key : Key)
    (acc : Manager × Trace) (name : String) : Manager × Trace :=
  let (m, tr) := acc
  match m.hotkeys.lookup name with
  | none => (m, tr)
  | some b =>
    match action with
    | .release => (setHotkeyState m name (b.hotkey.release key), tr)
    | .press =>
      let (hk, fired) := b.hotkey.press key
      let m := setHotkeyState m name hk
      if fired then
        let (m, tr2, _) := _execute_callback m now name
        (m, tr.append tr2)
      else (m, tr)

/-- The chord-suffix handling of `HotkeyManager._dispatch` (the part
after the binding loop): runs only on a press while armed; consumes the
ignore flag; maps the key to a token; `esc` cancels; otherwise the token
is appended to the buffer and the buffer is resolved as exact match
(invoke, catching and logging a raising callback, then disarm), strict
prefix (keep waiting), or no match (disarm). -/
def chordStep (m : Manager) (tr : Trace) (action : KeyAction) (key : Key) :
    Manager × Trace :=
  if action = KeyAction.press ∧ m.armed then
    if m.ignoreNext then ({ m with ignoreNext := false }, tr)
    else
      match _key_to_token key with
      | none => (m, tr)
      | some token =>
        if token = "esc" then (_disarm m, tr)
        else
          let buf := m.buffer ++ [token]
          let m := { m with buffer := buf }
          match m.suffixSeqMap.lookup buf with
          | some cb =>
            let m := _disarm m
            match runUser cb with
            | .ok _ => (m, tr.append ⟨[cb.id], []⟩)
            | .error _ => (m, tr.append ⟨[cb.id], [joinTokens buf]⟩)
          | none =>
            if m.suffixSeqMap.any (fun p => buf.isPrefixOf p.1) then (m, tr)
            else (_disarm m, tr)
  else (m, tr)

/-- `HotkeyManager._dispatch`: bail out when the listener is gone, feed
the event to every registered binding (snapshot of the table's keys),
then run the chord-suffix handling on the resulting state. -/
def _dispatch (m : Manager) (now : Int) (action : KeyAction) (key : Key) :
    Manager × Trace :=
  if m.listener then
    let names := m.hotkeys.map Prod.fst
    let (m, tr) := names.foldl (feedBinding now action key) (m, Trace.empty)
    chordStep m tr action key
  else (m, Trace.empty)

/-- Whether the pending arm timer's deadline has been reached. -/
def timerDue (m : Manager) (now : Int) : Bool :=
  match m.armTimer with
  | some d => decide (d ≤ now)
  | none => false

/-- An external event of a scenario run: a raw key event at a timestamp,
or the arm timer's `threading.Timer` firing (its body is `_disarm`). -/
inductive Event where
  | key (t : Int) (action : KeyAction) (k : Key)
  | timeout (t : Int)

/-- Scenario scheduler: a due timer fires (running `_disarm`) before a
later key event is dispatched; a cancelled or not-yet-due timer does
nothing. -/
def stepEvent (mt : Manager × Trace) (e : Event) : Manager × Trace :=
  let (m, tr) := mt
  match e with
  | .key t a k =>
    let m := if timerDue m t then _disarm m else m
    let (m, tr2) := _dispatch m t a k
    (m, tr.append tr2)
  | .timeout t =>
    if timerDue m t then (_disarm m, tr) else (m, tr)

/-- Run a list of events from a state, accumulating the trace. -/
def run (m : Manager) (es : List Event) : Manager × Trace :=
  es.foldl stepEvent (m, Trace.empty)

/-- Deliver a list of raw key events to the dispatch path only (no
timer scheduling), accumulating the trace. -/
def dispatchAll (m : Manager) : List (Int × KeyAction × Key) → Manager × Trace
  | [] => (m, Trace.empty)
  | e :: es =>
    let (m2, tr2) := _dispatch m e.1 e.2.1 e.2.2
    let (m3, tr3) := dispatchAll m2 es
    (m3, tr2.append tr3)

/-- The buffer is a strict prefix of at least one registered sequence. -/
def strictPrefixOfSome (buf : List String) (sm : List (List String × Callback)) : Prop :=
  ∃ p ∈ sm, buf.isPrefixOf p.1 = true ∧ buf ≠ p.1

/-- The chord-engine invariant claimed by the spec: while armed, the
buffer is a strict prefix of at least one registered sequence. -/
def chordInv (m : Manager) : Prop :=
  m.armed = true → strictPrefixOfSome m.buffer m.suffixSeqMap

/-- Well-formedness of a configured sequence map, per the spec's data
model: the map is non-empty and every ChordSequence is a non-empty
token tuple. -/
def goodSeqMap (m : Manager) : Prop :=
  m.suffixSeqMap ≠ [] ∧ ∀ p ∈ m.suffixSeqMap, p.1 ≠ []

end StreamCompanion

namespace StreamAnimate

/-- A `_Binding` of `stream_animate/hotkeys.py`: this variant has no
chord support, so callbacks are always user callbacks. -/
structure Binding where
  combination : String
  callback : Callback
  hotkey : HotKey
deriving DecidableEq

/-- The mutable state of `stream_animate.HotkeyManager` (no chord
fields). -/
structure Manager where
  listener : Bool
  hotkeys : List (String × Binding)
deriving DecidableEq

/-- `HotkeyManager.__init__`. -/
def Manager.init : Manager := { listener := false, hotkeys := [] }

/-- `HotkeyManager.start`. -/
def start (m : Manager) : Manager × Bool :=
  if m.listener then (m, false) else ({ m with listener := true }, true)

/-- `HotkeyManager.stop`. -/
def stop (m : Manager) : Manager × Bool :=
  if m.listener then ({ m with listener := false }, true) else (m, false)

/-- `HotkeyManager.register_hotkey` (same text as the
`stream_companion` variant). -/
def register_hotkey (m : Manager) (combination : String) (cb : Callback) :
    Manager × Option PyErr :=
  if combination = "" then
    (m, some (.valueError "Hotkey combination must be a non-empty string"))
  else
    let normalized := _normalize_combination combination
    if (m.hotkeys.lookup normalized).isSome then
      (m, some (.valueError ("Hotkey \x27" ++ combination ++ "\x27 already registered")))
    else
      ({ m with hotkeys :=
          m.hotkeys ++ [(normalized, ⟨combination, cb, _default_hotkey_factory combination⟩)] },
       none)

/-- `HotkeyManager.unregister_hotkey`. -/
def unregister_hotkey (m : Manager) (combination : String) : Manager × Bool :=
  let normalized := _normalize_combination combination
  if (m.hotkeys.lookup normalized).isSome then
    ({ m with hotkeys := m.hotkeys.filter (fun p => p.1 != normalized) }, true)
  else (m, false)

/-- `HotkeyManager._execute_callback`. -/
def _execute_callback (m : Manager) (normalized : String) :
    Manager × Trace × Bool :=
  match m.hotkeys.lookup normalized with
  | none => (m, Trace.empty, false)
  | some b =>
    match runUser b.callback with
    | .ok _ => (m, ⟨[b.callback.id], []⟩, true)
    | .error _ => (m, ⟨[b.callback.id], [b.combination]⟩, false)

/-- `HotkeyManager.trigger`. -/
def trigger (m : Manager) (combination : String) : Manager × Trace × Bool :=
  _execute_callback m (_normalize_combination combination)

/-- `HotkeyManager.registered_combinations`. -/
def registered_combinations (m : Manager) : List String :=
  m.hotkeys.map (fun p => p.2.combination)

end StreamAnimate

/-! The shared public interface for the two `HotkeyManager` variants,
as a call language, to compare them behaviourally. -/

/-- One call of the shared public interface. -/
inductive Op where
  | register (combination : String) (cb : Callback)
  | unregister (combination : String)
  | trig (combination : String)
  | combos
  | startOp
  | stopOp

/-- The observable result of one call: either a possibly-raised error
(`register`), a boolean, or the combination tuple. -/
inductive Out where
  | ret (err : Option PyErr)
  | bool (b : Bool)
  | combos (cs : List String)
deriving DecidableEq

/-- Interpret one call on the `stream_animate` variant. -/
def StreamAnimate.applyOp (m : Manager) (op : Op) : Manager × Out × Trace :=
  match op with
  | .register c cb =>
    let (m, e) := register_hotkey m c cb
    (m, .ret e, Trace.empty)
  | .unregister c =>
    let (m, b) := unregister_hotkey m c
    (m, .bool b, Trace.empty)
  | .trig c =>
    let (m, tr, b) := trigger m c
    (m, .bool b, tr)
  | .combos => (m, .combos (registered_combinations m), Trace.empty)
  | .startOp =>
    let (m, b) := start m
    (m, .bool b, Trace.empty)
  | .stopOp =>
    let (m, b) := stop m
    (m, .bool b, Trace.empty)

/-- Interpret a call sequence on the `stream_animate` variant. -/
def StreamAnimate.runOps (m : Manager) : List Op → Manager × List Out × Trace
  | [] => (m, [], Trace.empty)
  | op :: ops =>
    let (m2, o, tr2) := applyOp m op
    let (m3, os, tr3) := runOps m2 ops
    (m3, o :: os, tr2.append tr3)

/-- Interpret one call on the `stream_companion` variant.  The public
interface passes user callbacks only; `trigger` is given the (here
irrelevant) timestamp 0. -/
def StreamCompanion.applyOp (m : Manager) (op : Op) : Manager × Out × Trace :=
  match op with
  | .register c cb =>
    let (m, e) := register_hotkey m c (.user cb)
    (m, .ret e, Trace.empty)
  | .unregister c =>
    let (m, b) := unregister_hotkey m c
    (m, .bool b, Trace.empty)
  | .trig c =>
    let (m, tr, b) := trigger m 0 c
    (m, .bool b, tr)
  | .combos => (m, .combos (registered_combinations m), Trace.empty)
  | .startOp =>
    let (m, b) := start m
    (m, .bool b, Trace.empty)
  | .stopOp =>
    let (m, b) := stop m
    (m, .bool b, Trace.empty)

/-- Interpret a call sequence on the `stream_companion` variant. -/
def StreamCompanion.runOps (m : Manager) : List Op → Manager × List Out × Trace
  | [] => (m, [], Trace.empty)
  | op :: ops =>
    let (m2, o, tr2) := applyOp m op
    let (m3, os, tr3) := runOps m2 ops
    (m3, o :: os, tr2.append tr3)

/-- Embed a `stream_animate` binding as the corresponding
`stream_companion` binding. -/
def embedBinding (b : StreamAnimate.Binding) : StreamCompanion.Binding :=
  ⟨b.combination, .user b.callback, b.hotkey⟩

/-- The simulation relation for the two variants: same listener state
and binding tables equal up to `embedBinding`. -/
def VariantRel (sa : StreamAnimate.Manager) (sc : StreamCompanion.Manager) : Prop :=
  sc.listener = sa.listener ∧
  sc.hotkeys = sa.hotkeys.map (fun p => (p.1, embedBinding p.2))

namespace StreamCompanion

/-! Concrete scenario states used by the testable-property claims. -/

/-- User callback `cbA`. -/
def cbA : Callback := ⟨1, false⟩

/-- User callback `cbB`. -/
def cbB : Callback := ⟨2, false⟩

/-- A manager configured with activator `<ctrl>+<alt>+a`, timeout
500 ms and sequence map `{(g,h): cbA, (g,k): cbB}`, started. -/
def chordMgr : Manager :=
  (start (configure_chord_sequences Manager.init "<ctrl>+<alt>+a" 500
    [(["g", "h"], cbA), (["g", "k"], cbB)]).1).1

/-- Pressing `ctrl`, `alt`, `a` in turn — the activator combination. -/
def activatorPresses : List Event :=
  [.key 0 .press (.special "ctrl"), .key 10 .press (.special "alt"),
   .key 20 .press (.char 'a')]

/-- The armed state reached by pressing the activator. -/
def armedMgr : Manager := (run chordMgr activatorPresses).1

/-- The armed state after additionally pressing `g` (buffer `["g"]`). -/
def armedG : Manager :=
  (run chordMgr (activatorPresses ++ [.key 100 .press (.char 'g')])).1

/-- First configuration call of the reconfiguration scenario. -/
def cfg1 : Manager × Option PyErr :=
  configure_chord_sequences Manager.init "<ctrl>+<alt>+a" 500 [(["g", "h"], cbA)]

/-- Second configuration call, re-using the same activator. -/
def cfg2 : Manager × Option PyErr :=
  configure_chord_sequences cfg1.1 "<ctrl>+<alt>+a" 700 [(["x"], cbB)]

/-- Reconfiguring `armedG` mid-session under a fresh activator. -/
def reconfArmed : Manager :=
  (configure_chord_sequences armedG "<f7>" 500 [(["x", "y"], cbB)]).1

/-- A raising user callback. -/
def cbRaise : Callback := ⟨5, true⟩

/-- A manager with a raising callback registered on `x`. -/
def raiseMgr : Manager := (register_hotkey Manager.init "x" (.user cbRaise)).1

/-- The binding `raiseMgr` stores under `x`. -/
def raiseBinding : Binding := ⟨"x", .user cbRaise, _default_hotkey_factory "x"⟩

/-- A started manager with a raising binding on `q` and a well-behaved
binding on `w`. -/
def twoMgr : Manager :=
  (start (register_hotkey
    (register_hotkey Manager.init "q" (.user ⟨7, true⟩)).1
    "w" (.user ⟨8, false⟩)).1).1

end StreamCompanion

/-! ### General lemmas -/

theorem Trace.append_empty (t : Trace) : t.append Trace.empty = t := by
  simp [Trace.append, Trace.empty]

theorem Trace.empty_append (t : Trace) : Trace.empty.append t = t := by
  simp [Trace.append, Trace.empty]

theorem lookup_append {α β : Type} [BEq α] (k : α) (l₁ l₂ : List (α × β))
    (h : l₁.lookup k = none) : (l₁ ++ l₂).lookup k = l₂.lookup k := by
  induction l₁ with
  | nil => rfl
  | cons p rest ih =>
    obtain ⟨k', v⟩ := p
    simp only [List.cons_append, List.lookup_cons] at h ⊢
    cases hkk : k == k' with
    | true => rw [hkk] at h; exact Option.noConfusion h
    | false => rw [hkk] at h; exact ih h

theorem lookup_cons_self {α β : Type} [BEq α] [LawfulBEq α] (k : α) (v : β)
    (l : List (α × β)) : ((k, v) :: l).lookup k = some v := by
  simp [List.lookup_cons]

theorem lookup_cons_ne {α β : Type} [BEq α] [LawfulBEq α] (k k' : α) (v : β)
    (l : List (α × β)) (h : k ≠ k') : ((k', v) :: l).lookup k = l.lookup k := by
  rw [List.lookup_cons]
  have hb : (k == k') = false := beq_eq_false_iff_ne.mpr h
  rw [hb]

theorem lookup_none_forall {α β : Type} [BEq α] [LawfulBEq α] (k : α)
    (l : List (α × β)) (h : l.lookup k = none) : ∀ p ∈ l, p.1 ≠ k := by
  induction l with
  | nil => intro p hp; cases hp
  | cons q rest ih =>
    obtain ⟨k', v⟩ := q
    simp only [List.lookup_cons] at h
    cases hkk : k == k' with
    | true => rw [hkk] at h; exact Option.noConfusion h
    | false =>
      rw [hkk] at h
      intro p hp
      rcases List.mem_cons.mp hp with rfl | hp
      · intro he
        simp only at he
        rw [he] at hkk
        simp at hkk
      · exact ih h p hp

theorem lookup_map_val {α β γ : Type} [BEq α] (k : α) (f : β → γ)
    (l : List (α × β)) :
    (l.map (fun p => (p.1, f p.2))).lookup k = (l.lookup k).map f := by
  induction l with
  | nil => rfl
  | cons p rest ih =>
    obtain ⟨k', v⟩ := p
    simp only [List.map_cons, List.lookup_cons]
    cases k == k' with
    | true => rfl
    | false => exact ih

theorem filter_map_val {α β γ : Type} (f : β → γ) (pred : α → Bool)
    (l : List (α × β)) :
    (l.map (fun p => (p.1, f p.2))).filter (fun p => pred p.1)
      = (l.filter (fun p => pred p.1)).map (fun p => (p.1, f p.2)) := by
  induction l with
  | nil => rfl
  | cons p rest ih =>
    simp only [List.map_cons, List.filter_cons]
    cases pred p.1 <;> simp [ih]

namespace StreamCompanion

/-! ### Reduction lemmas for the chord-suffix step -/

theorem chordStep_ignore (m : Manager) (tr : Trace) (k : Key)
    (harm : m.armed = true) (hig : m.ignoreNext = true) :
    chordStep m tr .press k = ({ m with ignoreNext := false }, tr) := by
  simp [chordStep, harm, hig]

theorem chordStep_unmapped (m : Manager) (tr : Trace) (k : Key)
    (harm : m.armed = true) (hig : m.ignoreNext = false)
    (htok : _key_to_token k = none) :
    chordStep m tr .press k = (m, tr) := by
  simp [chordStep, harm, hig, htok]

theorem chordStep_esc (m : Manager) (tr : Trace) (k : Key)
    (harm : m.armed = true) (hig : m.ignoreNext = false)
    (htok : _key_to_token k = some "esc") :
    chordStep m tr .press k = (_disarm m, tr) := by
  simp [chordStep, harm, hig, htok]

theorem chordStep_exact (m : Manager) (tr : Trace) (k : Key) (tok : String)
    (cb : Callback)
    (harm : m.armed = true) (hig : m.ignoreNext = false)
    (htok : _key_to_token k = some tok) (hesc : tok ≠ "esc")
    (hlook : m.suffixSeqMap.lookup (m.buffer ++ [tok]) = some cb) :
    chordStep m tr .press k =
      (_disarm m,
       if cb.raises then
         tr.append ⟨[cb.id], [joinTokens (m.buffer ++ [tok])]⟩
       else tr.append ⟨[cb.id], []⟩) := by
  simp only [chordStep, harm, hig, htok]
  simp only [if_neg hesc]
  simp only [hlook]
  cases hr : cb.raises <;> simp [runUser, hr, _disarm]

theorem chordStep_prefix_keep (m : Manager) (tr : Trace) (k : Key) (tok : String)
    (harm : m.armed = true) (hig : m.ignoreNext = false)
    (htok : _key_to_token k = some tok) (hesc : tok ≠ "esc")
    (hlook : m.suffixSeqMap.lookup (m.buffer ++ [tok]) = none)
    (hpre : (m.suffixSeqMap.any fun p => (m.buffer ++ [tok]).isPrefixOf p.1) = true) :
    chordStep m tr .press k = ({ m with buffer := m.buffer ++ [tok] }, tr) := by
  simp [chordStep, harm, hig, htok, if_neg hesc, hlook, hpre]

theorem chordStep_nomatch (m : Manager) (tr : Trace) (k : Key) (tok : String)
    (harm : m.armed = true) (hig : m.ignoreNext = false)
    (htok : _key_to_token k = some tok) (hesc : tok ≠ "esc")
    (hlook : m.suffixSeqMap.lookup (m.buffer ++ [tok]) = none)
    (hpre : (m.suffixSeqMap.any fun p => (m.buffer ++ [tok]).isPrefixOf p.1) = false) :
    chordStep m tr .press k = (_disarm m, tr) := by
  simp [chordStep, harm, hig, htok, if_neg hesc, hlook, hpre, _disarm]

/-! ### Reduction lemmas for registration and configuration -/

theorem register_ok (m : Manager) (c : String) (cb : CB)
    (hc : c ≠ "") (hf : m.hotkeys.lookup (_normalize_combination c) = none) :
    register_hotkey m c cb =
      ({ m with hotkeys := m.hotkeys ++
          [(_normalize_combination c, ⟨c, cb, _default_hotkey_factory c⟩)] },
       none) := by
  simp [register_hotkey, hc, hf]

theorem register_dup (m : Manager) (c : String) (cb : CB)
    (hc : c ≠ "") (hf : (m.hotkeys.lookup (_normalize_combination c)).isSome = true) :
    register_hotkey m c cb =
      (m, some (.valueError ("Hotkey \x27" ++ c ++ "\x27 already registered"))) := by
  simp [register_hotkey, hc, hf]

theorem configure_dup (m : Manager) (activator : String) (timeoutMs : Int)
    (seqMap : List (List String × Callback))
    (ha : activator ≠ "") (hs : seqMap ≠ [])
    (hdup : (m.hotkeys.lookup (_normalize_combination activator)).isSome = true) :
    configure_chord_sequences m activator timeoutMs seqMap =
      ({ m with activatorCombo := some (_normalize_combination activator) },
       some (.valueError
         ("Hotkey \x27" ++ activator ++ "\x27 already registered"))) := by
  have hreg := register_dup
    { m with activatorCombo := some (_normalize_combination activator) }
    activator (.armCb timeoutMs) ha (by simpa using hdup)
  simp [configure_chord_sequences, ha, hs, hreg]

theorem dispatch_stopped (m : Manager) (now : Int) (a : KeyAction) (k : Key)
    (h : m.listener = false) : _dispatch m now a k = (m, Trace.empty) := by
  simp [_dispatch, h]

theorem dispatchAll_stopped (m : Manager) (h : m.listener = false)
    (es : List (Int × KeyAction × Key)) : dispatchAll m es = (m, Trace.empty) := by
  induction es with
  | nil => rfl
  | cons e es ih =>
    simp [dispatchAll, dispatch_stopped m e.1 e.2.1 e.2.2 h, ih, Trace.empty_append]

end StreamCompanion

namespace StreamCompanion

/-! ### Chord-invariant preservation -/

theorem strictPrefix_nil (sm : List (List String × Callback))
    (hne : sm ≠ []) (hall : ∀ p ∈ sm, p.1 ≠ []) :
    strictPrefixOfSome [] sm := by
  obtain ⟨p, hp⟩ := List.exists_mem_of_ne_nil sm hne
  exact ⟨p, hp, List.isPrefixOf_nil_left, fun he => hall p hp he.symm⟩

theorem arm_chordInv (m : Manager) (now t : Int) (hg : goodSeqMap m) :
    chordInv (_arm m now t) := by
  intro _
  exact strictPrefix_nil m.suffixSeqMap hg.1 hg.2

theorem disarm_chordInv (m : Manager) : chordInv (_disarm m) := by
  intro h
  exact absurd h (by simp [_disarm])

theorem execCallback_none (m : Manager) (now : Int) (s : String)
    (h : m.hotkeys.lookup s = none) :
    _execute_callback m now s = (m, Trace.empty, false) := by
  simp [_execute_callback, h]

theorem execCallback_user (m : Manager) (now : Int) (s : String)
    (b : Binding) (c : Callback)
    (hb : m.hotkeys.lookup s = some b) (hcb : b.callback = .user c) :
    _execute_callback m now s =
      (m, ⟨[c.id], if c.raises then [b.combination] else []⟩, !c.raises) := by
  simp only [_execute_callback, hb, hcb]
  cases hr : c.raises <;> simp [runUser, hr]

theorem execCallback_armCb (m : Manager) (now : Int) (s : String)
    (b : Binding) (t : Int)
    (hb : m.hotkeys.lookup s = some b) (hcb : b.callback = .armCb t) :
    _execute_callback m now s = (_arm m now t, Trace.empty, true) := by
  simp [_execute_callback, hb, hcb]

theorem execCallback_seqMap (m : Manager) (now : Int) (s : String) :
    (_execute_callback m now s).1.suffixSeqMap = m.suffixSeqMap := by
  cases hb : m.hotkeys.lookup s with
  | none => rw [execCallback_none m now s hb]
  | some b =>
    cases hcb : b.callback with
    | user c => rw [execCallback_user m now s b c hb hcb]
    | armCb t => rw [execCallback_armCb m now s b t hb hcb]; rfl

theorem execCallback_chordInv (m : Manager) (now : Int) (s : String)
    (hg : goodSeqMap m) (hinv : chordInv m) :
    chordInv (_execute_callback m now s).1 := by
  cases hb : m.hotkeys.lookup s with
  | none => rw [execCallback_none m now s hb]; exact hinv
  | some b =>
    cases hcb : b.callback with
    | user c => rw [execCallback_user m now s b c hb hcb]; exact hinv
    | armCb t =>
      rw [execCallback_armCb m now s b t hb hcb]
      exact arm_chordInv m now t hg

theorem feedBinding_none (now : Int) (a : KeyAction) (k : Key) (m : Manager)
    (tr : Trace) (name : String) (h : m.hotkeys.lookup name = none) :
    feedBinding now a k (m, tr) name = (m, tr) := by
  simp [feedBinding, h]

theorem feedBinding_release (now : Int) (k : Key) (m : Manager) (tr : Trace)
    (name : String) (b : Binding) (hb : m.hotkeys.lookup name = some b) :
    feedBinding now .release k (m, tr) name
      = (setHotkeyState m name (b.hotkey.release k), tr) := by
  simp [feedBinding, hb]

theorem feedBinding_press_nofire (now : Int) (k : Key) (m : Manager)
    (tr : Trace) (name : String) (b : Binding) (hk : HotKey)
    (hb : m.hotkeys.lookup name = some b) (hp : b.hotkey.press k = (hk, false)) :
    feedBinding now .press k (m, tr) name = (setHotkeyState m name hk, tr) := by
  simp [feedBinding, hb, hp]

theorem feedBinding_press_fire (now : Int) (k : Key) (m : Manager)
    (tr : Trace) (name : String) (b : Binding) (hk : HotKey)
    (m2 : Manager) (tr2 : Trace) (bres : Bool)
    (hb : m.hotkeys.lookup name = some b) (hp : b.hotkey.press k = (hk, true))
    (he : _execute_callback (setHotkeyState m name hk) now name = (m2, tr2, bres)) :
    feedBinding now .press k (m, tr) name = (m2, tr.append tr2) := by
  simp [feedBinding, hb, hp, he]

theorem feedBinding_inv (now : Int) (a : KeyAction) (k : Key)
    (acc : Manager × Trace) (name : String)
    (hg : goodSeqMap acc.1) (hinv : chordInv acc.1) :
    goodSeqMap (feedBinding now a k acc name).1 ∧
    chordInv (feedBinding now a k acc name).1 := by
  obtain ⟨m, tr⟩ := acc
  cases hb : m.hotkeys.lookup name with
  | none => rw [feedBinding_none now a k m tr name hb]; exact ⟨hg, hinv⟩
  | some b =>
    cases a with
    | release => rw [feedBinding_release now k m tr name b hb]; exact ⟨hg, hinv⟩
    | press =>
      cases hp : b.hotkey.press k with
      | mk hk fired =>
        cases fired with
        | false =>
          rw [feedBinding_press_nofire now k m tr name b hk hb hp]
          exact ⟨hg, hinv⟩
        | true =>
          cases he : _execute_callback (setHotkeyState m name hk) now name with
          | mk m2 rest =>
            obtain ⟨tr2, bres⟩ := rest
            rw [feedBinding_press_fire now k m tr name b hk m2 tr2 bres hb hp he]
            have h1 := execCallback_seqMap (setHotkeyState m name hk) now name
            have h2 := execCallback_chordInv (setHotkeyState m name hk) now name hg hinv
            rw [he] at h1 h2
            dsimp only at h1 h2
            constructor
            · show goodSeqMap m2
              unfold goodSeqMap
              rw [h1]
              exact hg
            · exact h2

theorem foldl_feed_inv (now : Int) (a : KeyAction) (k : Key)
    (names : List String) (acc : Manager × Trace)
    (hg : goodSeqMap acc.1) (hinv : chordInv acc.1) :
    goodSeqMap (names.foldl (feedBinding now a k) acc).1 ∧
    chordInv (names.foldl (feedBinding now a k) acc).1 := by
  induction names generalizing acc with
  | nil => exact ⟨hg, hinv⟩
  | cons n ns ih =>
    have h := feedBinding_inv now a k acc n hg hinv
    exact ih _ h.1 h.2

theorem chordStep_inactive (m : Manager) (tr : Trace) (a : KeyAction) (k : Key)
    (h : ¬(a = KeyAction.press ∧ m.armed = true)) :
    chordStep m tr a k = (m, tr) := by
  simp only [chordStep]
  rw [if_neg h]

theorem chordStep_chordInv (m : Manager) (tr : Trace) (a : KeyAction) (k : Key)
    (hinv : chordInv m) : chordInv (chordStep m tr a k).1 := by
  by_cases hcond : a = KeyAction.press ∧ m.armed = true
  · obtain ⟨rfl, harm⟩ := hcond
    cases hig : m.ignoreNext with
    | true =>
      rw [chordStep_ignore m tr k harm hig]
      exact hinv
    | false =>
      cases htok : _key_to_token k with
      | none =>
        rw [chordStep_unmapped m tr k harm hig htok]
        exact hinv
      | some tok =>
        by_cases hesc : tok = "esc"
        · subst hesc
          rw [chordStep_esc m tr k harm hig htok]
          exact disarm_chordInv m
        · cases hlook : m.suffixSeqMap.lookup (m.buffer ++ [tok]) with
          | some cb =>
            rw [chordStep_exact m tr k tok cb harm hig htok hesc hlook]
            cases cb.raises <;> exact disarm_chordInv m
          | none =>
            cases hpre : (m.suffixSeqMap.any
                fun p => (m.buffer ++ [tok]).isPrefixOf p.1) with
            | true =>
              rw [chordStep_prefix_keep m tr k tok harm hig htok hesc hlook hpre]
              intro _
              obtain ⟨p, hp, hpref⟩ := List.any_eq_true.mp hpre
              refine ⟨p, hp, hpref, fun he => ?_⟩
              exact lookup_none_forall _ _ hlook p hp he.symm
            | false =>
              rw [chordStep_nomatch m tr k tok harm hig htok hesc hlook hpre]
              exact disarm_chordInv m
  · rw [chordStep_inactive m tr a k hcond]
    exact hinv

theorem dispatch_chordInv (m : Manager) (now : Int) (a : KeyAction) (k : Key)
    (hg : goodSeqMap m) (hinv : chordInv m) :
    chordInv (_dispatch m now a k).1 := by
  unfold _dispatch
  cases hl : m.listener with
  | false => simpa using hinv
  | true =>
    simp only [if_true]
    have h := foldl_feed_inv now a k (m.hotkeys.map Prod.fst) (m, Trace.empty) hg hinv
    cases hf : (m.hotkeys.map Prod.fst).foldl (feedBinding now a k) (m, Trace.empty) with
    | mk m2 tr2 =>
      rw [hf] at h
      exact chordStep_chordInv m2 tr2 a k h.2

theorem register_armed_eq (m : Manager) (c : String) (cb : CB) :
    (register_hotkey m c cb).1.armed = m.armed := by
  unfold register_hotkey
  by_cases hc : c = ""
  · simp [hc]
  · simp only [if_neg hc]
    by_cases hf : (m.hotkeys.lookup (_normalize_combination c)).isSome
    · simp [hf]
    · simp [hf]

theorem configure_armed_eq (m : Manager) (a : String) (t : Int)
    (s : List (List String × Callback)) :
    (configure_chord_sequences m a t s).1.armed = m.armed := by
  unfold configure_chord_sequences
  by_cases ha : a = ""
  · simp [ha]
  · simp only [if_neg ha]
    by_cases hs : s = []
    · simp [hs]
    · simp only [if_neg hs]
      cases hreg : register_hotkey
          { m with activatorCombo := some (_normalize_combination a) } a
          (.armCb t) with
      | mk m2 e =>
        have harm := register_armed_eq
          { m with activatorCombo := some (_normalize_combination a) } a (.armCb t)
        rw [hreg] at harm
        cases e with
        | none => exact harm
        | some e => exact harm

theorem configure_disarmed_chordInv (m : Manager) (a : String) (t : Int)
    (s : List (List String × Callback)) (h : m.armed = false) :
    chordInv (configure_chord_sequences m a t s).1 := by
  intro harm
  rw [configure_armed_eq m a t s, h] at harm
  exact Bool.noConfusion harm

theorem unregister_found (m : Manager) (c : String) (b : Binding)
    (hb : m.hotkeys.lookup (_normalize_combination c) = some b) :
    unregister_hotkey m c =
      ({ m with hotkeys :=
          m.hotkeys.filter (fun p => p.1 != _normalize_combination c) }, true) := by
  simp [unregister_hotkey, hb]

theorem unregister_missing (m : Manager) (c : String)
    (h : m.hotkeys.lookup (_normalize_combination c) = none) :
    unregister_hotkey m c = (m, false) := by
  simp [unregister_hotkey, h]

end StreamCompanion

namespace StreamAnimate

/-! ### Reduction lemmas for the plain variant -/

theorem registerA_ok (m : Manager) (c : String) (cb : Callback)
    (hc : c ≠ "") (hf : m.hotkeys.lookup (_normalize_combination c) = none) :
    register_hotkey m c cb =
      ({ m with hotkeys := m.hotkeys ++
          [(_normalize_combination c, ⟨c, cb, _default_hotkey_factory c⟩)] },
       none) := by
  simp [register_hotkey, hc, hf]

theorem registerA_dup (m : Manager) (c : String) (cb : Callback)
    (hc : c ≠ "") (hf : (m.hotkeys.lookup (_normalize_combination c)).isSome = true) :
    register_hotkey m c cb =
      (m, some (.valueError ("Hotkey \x27" ++ c ++ "\x27 already registered"))) := by
  simp [register_hotkey, hc, hf]

theorem execCallbackA_none (m : Manager) (s : String)
    (h : m.hotkeys.lookup s = none) :
    _execute_callback m s = (m, Trace.empty, false) := by
  simp [_execute_callback, h]

theorem execCallbackA_found (m : Manager) (s : String) (b : Binding)
    (hb : m.hotkeys.lookup s = some b) :
    _execute_callback m s =
      (m, ⟨[b.callback.id],
           if b.callback.raises then [b.combination] else []⟩,
       !b.callback.raises) := by
  simp only [_execute_callback, hb]
  cases hr : b.callback.raises <;> simp [runUser, hr]

theorem unregisterA_found (m : Manager) (c : String) (b : Binding)
    (hb : m.hotkeys.lookup (_normalize_combination c) = some b) :
    unregister_hotkey m c =
      ({ m with hotkeys :=
          m.hotkeys.filter (fun p => p.1 != _normalize_combination c) }, true) := by
  simp [unregister_hotkey, hb]

theorem unregisterA_missing (m : Manager) (c : String)
    (h : m.hotkeys.lookup (_normalize_combination c) = none) :
    unregister_hotkey m c = (m, false) := by
  simp [unregister_hotkey, h]

end StreamAnimate

/-! ### Behavioural equivalence of the two variants -/

theorem applyOp_rel (sa : StreamAnimate.Manager) (sc : StreamCompanion.Manager)
    (h : VariantRel sa sc) (op : Op) :
    VariantRel (StreamAnimate.applyOp sa op).1 (StreamCompanion.applyOp sc op).1 ∧
    (StreamCompanion.applyOp sc op).2.1 = (StreamAnimate.applyOp sa op).2.1 ∧
    (StreamCompanion.applyOp sc op).2.2 = (StreamAnimate.applyOp sa op).2.2 := by
  obtain ⟨hl, hh⟩ := h
  cases op with
  | register c cb =>
    by_cases hc : c = ""
    · subst hc
      simp [StreamAnimate.applyOp, StreamCompanion.applyOp,
            StreamAnimate.register_hotkey, StreamCompanion.register_hotkey,
            VariantRel, hl, hh]
    · have hlk : sc.hotkeys.lookup (_normalize_combination c)
          = (sa.hotkeys.lookup (_normalize_combination c)).map embedBinding := by
        rw [hh]; exact lookup_map_val _ _ _
      cases hsa : sa.hotkeys.lookup (_normalize_combination c) with
      | some b =>
        have hsc : sc.hotkeys.lookup (_normalize_combination c)
            = some (embedBinding b) := by rw [hlk, hsa]; rfl
        have eA := StreamAnimate.registerA_dup sa c cb hc (by rw [hsa]; rfl)
        have eC := StreamCompanion.register_dup sc c (.user cb) hc (by rw [hsc]; rfl)
        simp [StreamAnimate.applyOp, StreamCompanion.applyOp, eA, eC,
              VariantRel, hl, hh]
      | none =>
        have hsc : sc.hotkeys.lookup (_normalize_combination c) = none := by
          rw [hlk, hsa]; rfl
        have eA := StreamAnimate.registerA_ok sa c cb hc hsa
        have eC := StreamCompanion.register_ok sc c (.user cb) hc hsc
        refine ⟨⟨?_, ?_⟩, ?_, ?_⟩
        · simp [StreamAnimate.applyOp, StreamCompanion.applyOp, eA, eC, hl]
        · simp [StreamAnimate.applyOp, StreamCompanion.applyOp, eA, eC, hh,
                embedBinding]
        · simp [StreamAnimate.applyOp, StreamCompanion.applyOp, eA, eC]
        · simp [StreamAnimate.applyOp, StreamCompanion.applyOp, eA, eC]
  | unregister c =>
    have hlk : sc.hotkeys.lookup (_normalize_combination c)
        = (sa.hotkeys.lookup (_normalize_combination c)).map embedBinding := by
      rw [hh]; exact lookup_map_val _ _ _
    cases hsa : sa.hotkeys.lookup (_normalize_combination c) with
    | some b =>
      have hsc : sc.hotkeys.lookup (_normalize_combination c)
          = some (embedBinding b) := by rw [hlk, hsa]; rfl
      have hfil : sc.hotkeys.filter (fun p => p.1 != _normalize_combination c)
          = (sa.hotkeys.filter (fun p => p.1 != _normalize_combination c)).map
              (fun p => (p.1, embedBinding p.2)) := by
        rw [hh]
        exact filter_map_val embedBinding
          (fun x => x != _normalize_combination c) sa.hotkeys
      have eA := StreamAnimate.unregisterA_found sa c b hsa
      have eC := StreamCompanion.unregister_found sc c (embedBinding b) hsc
      refine ⟨⟨?_, ?_⟩, ?_, ?_⟩ <;>
        simp [StreamAnimate.applyOp, StreamCompanion.applyOp, eA, eC, hl, hfil]
    | none =>
      have hsc : sc.hotkeys.lookup (_normalize_combination c) = none := by
        rw [hlk, hsa]; rfl
      have eA := StreamAnimate.unregisterA_missing sa c hsa
      have eC := StreamCompanion.unregister_missing sc c hsc
      refine ⟨⟨?_, ?_⟩, ?_, ?_⟩ <;>
        simp [StreamAnimate.applyOp, StreamCompanion.applyOp, eA, eC, hl, hh]
  | trig c =>
    have hlk : sc.hotkeys.lookup (_normalize_combination c)
        = (sa.hotkeys.lookup (_normalize_combination c)).map embedBinding := by
      rw [hh]; exact lookup_map_val _ _ _
    cases hsa : sa.hotkeys.lookup (_normalize_combination c) with
    | some b =>
      have hsc : sc.hotkeys.lookup (_normalize_combination c)
          = some (embedBinding b) := by rw [hlk, hsa]; rfl
      have eA := StreamAnimate.execCallbackA_found sa _ b hsa
      have eC := StreamCompanion.execCallback_user sc 0 _ (embedBinding b)
        b.callback hsc rfl
      simp [StreamAnimate.applyOp, StreamCompanion.applyOp,
            StreamAnimate.trigger, StreamCompanion.trigger, eA, eC,
            VariantRel, hl, hh, embedBinding]
    | none =>
      have hsc : sc.hotkeys.lookup (_normalize_combination c) = none := by
        rw [hlk, hsa]; rfl
      have eA := StreamAnimate.execCallbackA_none sa _ hsa
      have eC := StreamCompanion.execCallback_none sc 0 _ hsc
      simp [StreamAnimate.applyOp, StreamCompanion.applyOp,
            StreamAnimate.trigger, StreamCompanion.trigger, eA, eC,
            VariantRel, hl, hh]
  | combos =>
    refine ⟨⟨hl, hh⟩, ?_, rfl⟩
    simp [StreamAnimate.applyOp, StreamCompanion.applyOp,
          StreamAnimate.registered_combinations,
          StreamCompanion.registered_combinations, hh, embedBinding]
  | startOp =>
    cases hsl : sa.listener with
    | true =>
      refine ⟨⟨?_, ?_⟩, ?_, ?_⟩ <;>
        simp [StreamAnimate.applyOp, StreamCompanion.applyOp,
              StreamAnimate.start, StreamCompanion.start, hsl, hl, hh]
    | false =>
      refine ⟨⟨?_, ?_⟩, ?_, ?_⟩ <;>
        simp [StreamAnimate.applyOp, StreamCompanion.applyOp,
              StreamAnimate.start, StreamCompanion.start, hsl, hl, hh]
  | stopOp =>
    cases hsl : sa.listener with
    | true =>
      refine ⟨⟨?_, ?_⟩, ?_, ?_⟩ <;>
        simp [StreamAnimate.applyOp, StreamCompanion.applyOp,
              StreamAnimate.stop, StreamCompanion.stop, hsl, hl, hh]
    | false =>
      refine ⟨⟨?_, ?_⟩, ?_, ?_⟩ <;>
        simp [StreamAnimate.applyOp, StreamCompanion.applyOp,
              StreamAnimate.stop, StreamCompanion.stop, hsl, hl, hh]

theorem runOps_rel (ops : List Op) (sa : StreamAnimate.Manager)
    (sc : StreamCompanion.Manager) (h : VariantRel sa sc) :
    VariantRel (StreamAnimate.runOps sa ops).1 (StreamCompanion.runOps sc ops).1 ∧
    (StreamCompanion.runOps sc ops).2.1 = (StreamAnimate.runOps sa ops).2.1 ∧
    (StreamCompanion.runOps sc ops).2.2 = (StreamAnimate.runOps sa ops).2.2 := by
  induction ops generalizing sa sc with
  | nil => exact ⟨h, rfl, rfl⟩
  | cons op ops ih =>
    have hstep := applyOp_rel sa sc h op
    cases hA : StreamAnimate.applyOp sa op with
    | mk sa2 rA =>
      obtain ⟨oA, trA2⟩ := rA
      cases hC : StreamCompanion.applyOp sc op with
      | mk sc2 rC =>
        obtain ⟨oC, trC2⟩ := rC
        rw [hA, hC] at hstep
        dsimp only at hstep
        obtain ⟨hrel2, ho, htr⟩ := hstep
        have hrest := ih sa2 sc2 hrel2
        cases hRA : StreamAnimate.runOps sa2 ops with
        | mk sa3 rrA =>
          obtain ⟨osA, trA3⟩ := rrA
          cases hRC : StreamCompanion.runOps sc2 ops with
          | mk sc3 rrC =>
            obtain ⟨osC, trC3⟩ := rrC
            rw [hRA, hRC] at hrest
            dsimp only at hrest
            obtain ⟨hrel3, hos, htr3⟩ := hrest
            simp only [StreamAnimate.runOps, StreamCompanion.runOps,
                       hA, hC, hRA, hRC]
            exact ⟨hrel3, by simp [ho, hos], by simp [htr, htr3]⟩

namespace StreamCompanion

/-! ### Claim theorems -/

/-- Claim C1, counterexample: calling `configure_chord_sequences` a second
time with the same activator does raise the duplicate-registration
`ValueError`, and the old sequence map and binding table survive — the
configuration is not replaced, contradicting the claim. -/
theorem c1_counterexample :
    cfg1.2 = none ∧
    cfg2.2 = some (.valueError "Hotkey \x27<ctrl>+<alt>+a\x27 already registered") ∧
    cfg2.1.suffixSeqMap = [(["g", "h"], cbA)] ∧
    cfg2.1.hotkeys = cfg1.1.hotkeys := by
  decide

/-- Claim C1, amended: when the activator's canonical form is already in
the binding table, `configure_chord_sequences` raises the
duplicate-registration `ValueError`; the binding table, the sequence map
and the armed flag are left unchanged, and only `_activator_combo` has
been reassigned (to the same canonical string when the activator is
unchanged). -/
theorem c1_reconfigure_raises (m : Manager) (activator : String)
    (timeoutMs : Int) (seqMap : List (List String × Callback))
    (ha : activator ≠ "") (hs : seqMap ≠ [])
    (hdup : (m.hotkeys.lookup (_normalize_combination activator)).isSome = true) :
    (configure_chord_sequences m activator timeoutMs seqMap).2
      = some (.valueError ("Hotkey \x27" ++ activator ++ "\x27 already registered")) ∧
    (configure_chord_sequences m activator timeoutMs seqMap).1.hotkeys = m.hotkeys ∧
    (configure_chord_sequences m activator timeoutMs seqMap).1.suffixSeqMap
      = m.suffixSeqMap ∧
    (configure_chord_sequences m activator timeoutMs seqMap).1.armed = m.armed ∧
    (configure_chord_sequences m activator timeoutMs seqMap).1.activatorCombo
      = some (_normalize_combination activator) := by
  rw [configure_dup m activator timeoutMs seqMap ha hs hdup]
  exact ⟨rfl, rfl, rfl, rfl, rfl⟩

/-- Claim C1, witness: the amended statement at the concrete
reconfiguration scenario. -/
theorem c1_reconfigure_raises_witness :
    (configure_chord_sequences cfg1.1 "<ctrl>+<alt>+a" 700 [(["x"], cbB)]).2
      = some (.valueError
          ("Hotkey \x27" ++ "<ctrl>+<alt>+a" ++ "\x27 already registered")) ∧
    (configure_chord_sequences cfg1.1 "<ctrl>+<alt>+a" 700 [(["x"], cbB)]).1.hotkeys
      = cfg1.1.hotkeys ∧
    (configure_chord_sequences cfg1.1 "<ctrl>+<alt>+a" 700 [(["x"], cbB)]).1.suffixSeqMap
      = cfg1.1.suffixSeqMap ∧
    (configure_chord_sequences cfg1.1 "<ctrl>+<alt>+a" 700 [(["x"], cbB)]).1.armed
      = cfg1.1.armed ∧
    (configure_chord_sequences cfg1.1 "<ctrl>+<alt>+a" 700 [(["x"], cbB)]).1.activatorCombo
      = some (_normalize_combination "<ctrl>+<alt>+a") :=
  c1_reconfigure_raises cfg1.1 "<ctrl>+<alt>+a" 700 [(["x"], cbB)]
    (by decide) (by decide) (by decide)

/-- Claim C2, counterexample: stopping the manager while a chord session
is armed returns `true` but leaves `armed = true` — `stop` does not
disarm, contradicting "after stop() returns true, armed is false". -/
theorem c2_counterexample :
    (stop armedMgr).2 = true ∧ (stop armedMgr).1.armed = true := by
  decide

/-- Claim C2, amended: a successful `stop` clears only the listener and
leaves all other state (including any armed chord session) untouched;
after it, any number of raw key events delivered to the dispatch path
produce zero callback invocations and zero state mutation. -/
theorem c2_stop_inert (m : Manager) (es : List (Int × KeyAction × Key))
    (h : (stop m).2 = true) :
    (stop m).1 = { m with listener := false } ∧
    dispatchAll (stop m).1 es = ((stop m).1, Trace.empty) := by
  cases hl : m.listener with
  | false => simp [stop, hl] at h
  | true =>
    have hstop : stop m = ({ m with listener := false }, true) := by simp [stop, hl]
    rw [hstop]
    exact ⟨rfl, dispatchAll_stopped _ rfl es⟩

/-- Claim C2, witness: the amended statement at the concrete armed
manager and two raw key events. -/
theorem c2_stop_inert_witness :
    (stop armedMgr).1 = { armedMgr with listener := false } ∧
    dispatchAll (stop armedMgr).1
        [(600, .press, Key.char 'g'), (700, .press, Key.char 'h')]
      = ((stop armedMgr).1, Trace.empty) :=
  c2_stop_inert armedMgr
    [(600, .press, Key.char 'g'), (700, .press, Key.char 'h')] (by decide)

/-- Claim C3, counterexample: a registered binding whose callback raises
makes `trigger` return `false` even though the canonical form is
registered, refuting "returns true iff registered". -/
theorem c3_counterexample :
    (raiseMgr.hotkeys.lookup (_normalize_combination "x")).isSome = true ∧
    (trigger raiseMgr 0 "x").2.2 = false ∧
    (trigger raiseMgr 0 "x").2.1.invoked = [cbRaise.id] := by
  decide

/-- Claim C3, amended: `trigger` returns `false` and invokes nothing when
the canonical form is unregistered; when it is registered to a user
callback, that callback is invoked exactly once, the state is unchanged,
and `trigger` returns `true` iff the callback did not raise; when it is
registered to the activator's arm closure, `trigger` arms the engine and
returns `true`. -/
theorem c3_trigger_spec (m : Manager) (now : Int) (C : String) :
    (m.hotkeys.lookup (_normalize_combination C) = none →
      trigger m now C = (m, Trace.empty, false)) ∧
    (∀ (b : Binding) (c : Callback),
      m.hotkeys.lookup (_normalize_combination C) = some b →
      b.callback = .user c →
      (trigger m now C).1 = m ∧
      (trigger m now C).2.1.invoked = [c.id] ∧
      ((trigger m now C).2.2 = true ↔ c.raises = false)) ∧
    (∀ (b : Binding) (t : Int),
      m.hotkeys.lookup (_normalize_combination C) = some b →
      b.callback = .armCb t →
      trigger m now C = (_arm m now t, Trace.empty, true)) := by
  refine ⟨?_, ?_, ?_⟩
  · intro h; simp [trigger, _execute_callback, h]
  · intro b c hb hcb
    simp only [trigger, _execute_callback, hb, hcb]
    cases hr : c.raises <;> simp [runUser, hr]
  · intro b t hb hcb
    simp [trigger, _execute_callback, hb, hcb]

/-- Claim C3, witness: the amended statement at the registered raising
callback. -/
theorem c3_trigger_spec_witness :
    (trigger raiseMgr 0 "x").1 = raiseMgr ∧
    (trigger raiseMgr 0 "x").2.1.invoked = [cbRaise.id] ∧
    ((trigger raiseMgr 0 "x").2.2 = true ↔ cbRaise.raises = false) :=
  (c3_trigger_spec raiseMgr 0 "x").2.1 raiseBinding cbRaise (by decide) rfl

/-- Claim C4: with activator `<ctrl>+<alt>+a`, timeout 500 ms and
sequence map `{(g,h): cbA, (g,k): cbB}`, pressing the activator arms the
engine within the same press event while the activator's terminal
keystroke is consumed (buffer stays empty, the ignore flag is already
cleared); then pressing `g` and `h` within the timeout invokes `cbA`
exactly once and disarms, while pressing `g` and letting the timeout
elapse invokes no callback and disarms. -/
theorem c4_chord_scenario :
    armedMgr.armed = true ∧ armedMgr.buffer = [] ∧ armedMgr.ignoreNext = false ∧
    (run chordMgr (activatorPresses ++
        [.key 100 .press (.char 'g'), .key 200 .press (.char 'h')])).2.invoked
      = [cbA.id] ∧
    (run chordMgr (activatorPresses ++
        [.key 100 .press (.char 'g'), .key 200 .press (.char 'h')])).1.armed
      = false ∧
    (run chordMgr (activatorPresses ++
        [.key 100 .press (.char 'g'), .timeout 521])).2.invoked = [] ∧
    (run chordMgr (activatorPresses ++
        [.key 100 .press (.char 'g'), .timeout 521])).1.armed = false := by
  decide

/-- Claim C5: an armed press event with a mapped token (ignore flag
already consumed) resolves into exactly one of: `esc` disarms with no
callback; an exact sequence match invokes that callback exactly once and
disarms, regardless of whether the buffer is also a prefix of a longer
sequence; a strict prefix stays armed; otherwise the engine disarms with
no callback. -/
theorem c5_chord_transition (m : Manager) (tr : Trace) (k : Key) (tok : String)
    (harm : m.armed = true) (hig : m.ignoreNext = false)
    (htok : _key_to_token k = some tok) :
    (tok = "esc" → chordStep m tr .press k = (_disarm m, tr)) ∧
    (∀ cb : Callback, tok ≠ "esc" →
      m.suffixSeqMap.lookup (m.buffer ++ [tok]) = some cb →
      (chordStep m tr .press k).1 = _disarm m ∧
      (chordStep m tr .press k).2.invoked = tr.invoked ++ [cb.id]) ∧
    (tok ≠ "esc" → m.suffixSeqMap.lookup (m.buffer ++ [tok]) = none →
      (m.suffixSeqMap.any fun p => (m.buffer ++ [tok]).isPrefixOf p.1) = true →
      chordStep m tr .press k = ({ m with buffer := m.buffer ++ [tok] }, tr)) ∧
    (tok ≠ "esc" → m.suffixSeqMap.lookup (m.buffer ++ [tok]) = none →
      (m.suffixSeqMap.any fun p => (m.buffer ++ [tok]).isPrefixOf p.1) = false →
      chordStep m tr .press k = (_disarm m, tr)) := by
  refine ⟨?_, ?_, ?_, ?_⟩
  · intro he; subst he; exact chordStep_esc m tr k harm hig htok
  · intro cb hesc hlook
    rw [chordStep_exact m tr k tok cb harm hig htok hesc hlook]
    cases hr : cb.raises <;> simp [Trace.append]
  · intro hesc hlook hpre
    exact chordStep_prefix_keep m tr k tok harm hig htok hesc hlook hpre
  · intro hesc hlook hpre
    exact chordStep_nomatch m tr k tok harm hig htok hesc hlook hpre

/-- Claim C5, witness: the prefix leg at the armed manager with buffer
`[]`, and the exact-match leg at buffer `["g"]`. -/
theorem c5_chord_transition_witness :
    (chordStep armedMgr Trace.empty .press (Key.char 'g')).1
      = { armedMgr with buffer := armedMgr.buffer ++ ["g"] } ∧
    (chordStep armedG Trace.empty .press (Key.char 'h')).1 = _disarm armedG ∧
    (chordStep armedG Trace.empty .press (Key.char 'h')).2.invoked
      = Trace.empty.invoked ++ [cbA.id] := by
  have h1 := c5_chord_transition armedMgr Trace.empty (Key.char 'g') "g"
    (by decide) (by decide) (by decide)
  have h2 := c5_chord_transition armedG Trace.empty (Key.char 'h') "h"
    (by decide) (by decide) (by decide)
  have e1 := h1.2.2.1 (by decide) (by decide) (by decide)
  have e2 := h2.2.1 cbA (by decide) (by decide)
  exact ⟨by rw [e1], e2.1, e2.2⟩

/-- Claim C6, counterexample: reconfiguring under a fresh activator while
a session is armed replaces the sequence map without disarming, leaving
`armed = true` with a buffer that is a strict prefix of nothing — the
claimed invariant fails for the configure operation. -/
theorem c6_counterexample :
    reconfArmed.armed = true ∧
    ¬ strictPrefixOfSome reconfArmed.buffer reconfArmed.suffixSeqMap := by
  constructor
  · decide
  · unfold strictPrefixOfSome
    decide

/-- Claim C6, amended: the strict-prefix invariant is preserved by `_arm`
(for a well-formed sequence map, per the data model's non-empty
ChordSequences), by `_disarm`, by `_dispatch`, and by
`configure_chord_sequences` called while Disarmed; within dispatch, the
instant the buffer is not a prefix of any registered sequence the engine
disarms. Configure called while Armed is excluded: it replaces the map
without disarming (the spec's open question). -/
theorem c6_invariant_preservation (m : Manager) (now tmo : Int)
    (a : KeyAction) (k : Key) (activator : String) (timeoutMs : Int)
    (seqMap : List (List String × Callback)) :
    (goodSeqMap m → chordInv (_arm m now tmo)) ∧
    chordInv (_disarm m) ∧
    (goodSeqMap m → chordInv m → chordInv (_dispatch m now a k).1) ∧
    (m.armed = false →
      chordInv (configure_chord_sequences m activator timeoutMs seqMap).1) :=
  ⟨fun hg => arm_chordInv m now tmo hg, disarm_chordInv m,
   fun hg hinv => dispatch_chordInv m now a k hg hinv,
   fun h => configure_disarmed_chordInv m activator timeoutMs seqMap h⟩

/-- Claim C6, witness: the amended statement at the configured manager
and a concrete dispatch. -/
theorem c6_invariant_preservation_witness :
    chordInv (_arm chordMgr 0 500) ∧
    chordInv (_disarm chordMgr) ∧
    chordInv (_dispatch chordMgr 0 .press (Key.char 'g')).1 ∧
    chordInv (configure_chord_sequences Manager.init "<f1>" 500 [(["z"], cbA)]).1 := by
  have h1 := c6_invariant_preservation chordMgr 0 500 .press (Key.char 'g') "x" 0 []
  have h2 := c6_invariant_preservation Manager.init 0 0 .press (Key.char 'g')
    "<f1>" 500 [(["z"], cbA)]
  exact ⟨h1.1 (by unfold goodSeqMap; decide), h1.2.1,
         h1.2.2.1 (by unfold goodSeqMap; decide)
           (by unfold chordInv strictPrefixOfSome; decide),
         h2.2.2.2 (by decide)⟩

/-- Claim C7: registering two combinations with different canonical forms
succeeds; registering the first again under any variation with the same
canonical form (case or segment whitespace) raises the
duplicate-registration `ValueError` and leaves the binding table
unchanged. -/
theorem c7_registration_uniqueness (m : Manager) (Ca Cb D : String)
    (cb1 cb2 cb3 : CB)
    (h1 : Ca ≠ "") (h2 : Cb ≠ "") (hD : D ≠ "")
    (hne : _normalize_combination Ca ≠ _normalize_combination Cb)
    (f1 : m.hotkeys.lookup (_normalize_combination Ca) = none)
    (f2 : m.hotkeys.lookup (_normalize_combination Cb) = none)
    (hDv : _normalize_combination D = _normalize_combination Ca) :
    (register_hotkey m Ca cb1).2 = none ∧
    (register_hotkey (register_hotkey m Ca cb1).1 Cb cb2).2 = none ∧
    (register_hotkey (register_hotkey (register_hotkey m Ca cb1).1 Cb cb2).1 D cb3).2
      = some (.valueError ("Hotkey \x27" ++ D ++ "\x27 already registered")) ∧
    (register_hotkey (register_hotkey (register_hotkey m Ca cb1).1 Cb cb2).1 D cb3).1
      = (register_hotkey (register_hotkey m Ca cb1).1 Cb cb2).1 := by
  have e1 := register_ok m Ca cb1 h1 f1
  have f2' : ((register_hotkey m Ca cb1).1).hotkeys.lookup
      (_normalize_combination Cb) = none := by
    rw [e1]
    simp only
    rw [lookup_append _ _ _ f2, lookup_cons_ne _ _ _ _ (Ne.symm hne)]
    rfl
  have e2 := register_ok (register_hotkey m Ca cb1).1 Cb cb2 h2 f2'
  have fD : ((register_hotkey (register_hotkey m Ca cb1).1 Cb cb2).1).hotkeys.lookup
      (_normalize_combination D)
      = some ⟨Ca, cb1, _default_hotkey_factory Ca⟩ := by
    rw [hDv, e2, e1]
    simp only
    rw [List.append_assoc, lookup_append _ _ _ f1]
    simp only [List.cons_append, List.nil_append]
    exact lookup_cons_self _ _ _
  have e3 := register_dup (register_hotkey (register_hotkey m Ca cb1).1 Cb cb2).1
    D cb3 hD (by rw [fD]; rfl)
  exact ⟨by rw [e1], by rw [e2], by rw [e3], by rw [e3]⟩

/-- Claim C7, witness: registering `a`, then `b`, then the case/whitespace
variant ` A` of `a`. -/
theorem c7_registration_uniqueness_witness :
    (register_hotkey Manager.init "a" (.user cbA)).2 = none ∧
    (register_hotkey (register_hotkey Manager.init "a" (.user cbA)).1 "b"
        (.user cbB)).2 = none ∧
    (register_hotkey (register_hotkey (register_hotkey Manager.init "a"
        (.user cbA)).1 "b" (.user cbB)).1 " A" (.user cbRaise)).2
      = some (.valueError ("Hotkey \x27" ++ " A" ++ "\x27 already registered")) ∧
    (register_hotkey (register_hotkey (register_hotkey Manager.init "a"
        (.user cbA)).1 "b" (.user cbB)).1 " A" (.user cbRaise)).1
      = (register_hotkey (register_hotkey Manager.init "a" (.user cbA)).1 "b"
          (.user cbB)).1 :=
  c7_registration_uniqueness Manager.init "a" "b" " A"
    (.user cbA) (.user cbB) (.user cbRaise)
    (by decide) (by decide) (by decide) (by decide)
    (by decide) (by decide) (by decide)

/-- Claim C8: a press that keeps the buffer a strict prefix of a
registered sequence leaves the timeout handle and its deadline unchanged
and stays armed with no callback; the timer's body is `_disarm`, which
disarms, discards the buffer, cancels the handle, and invokes no
callback when a due timeout fires. -/
theorem c8_timeout_single_countdown (m : Manager) (tr : Trace) (k : Key)
    (tok : String)
    (harm : m.armed = true) (hig : m.ignoreNext = false)
    (htok : _key_to_token k = some tok) (hesc : tok ≠ "esc")
    (hlook : m.suffixSeqMap.lookup (m.buffer ++ [tok]) = none)
    (hpre : (m.suffixSeqMap.any fun p => (m.buffer ++ [tok]).isPrefixOf p.1) = true) :
    (chordStep m tr .press k).1.armTimer = m.armTimer ∧
    (chordStep m tr .press k).1.armed = true ∧
    (chordStep m tr .press k).2 = tr ∧
    (∀ m' : Manager, (_disarm m').armed = false ∧ (_disarm m').buffer = [] ∧
      (_disarm m').armTimer = none) ∧
    (∀ (m' : Manager) (tr' : Trace) (t : Int), timerDue m' t = true →
      stepEvent (m', tr') (.timeout t) = (_disarm m', tr')) := by
  rw [chordStep_prefix_keep m tr k tok harm hig htok hesc hlook hpre]
  refine ⟨rfl, harm, rfl, fun m' => ⟨rfl, rfl, rfl⟩, ?_⟩
  intro m' tr' t ht
  simp [stepEvent, ht]

/-- Claim C8, witness: the prefix keystroke `g` on the armed manager. -/
theorem c8_timeout_single_countdown_witness :
    (chordStep armedMgr Trace.empty .press (Key.char 'g')).1.armTimer
      = armedMgr.armTimer ∧
    (chordStep armedMgr Trace.empty .press (Key.char 'g')).1.armed = true ∧
    (chordStep armedMgr Trace.empty .press (Key.char 'g')).2 = Trace.empty := by
  have h := c8_timeout_single_countdown armedMgr Trace.empty (Key.char 'g') "g"
    (by decide) (by decide) (by decide) (by decide) (by decide) (by decide)
  exact ⟨h.1, h.2.1, h.2.2.1⟩

/-- Claim C9: a raising direct-binding callback is caught inside
`_execute_callback`, logged with the binding's combination, and the call
returns normally with `false`; a raising chord-sequence callback is
caught inside `_dispatch`, logged with the joined sequence, and the
dispatch returns normally after disarming; and concretely dispatch
continues past a raising binding to subsequent bindings and events. -/
theorem c9_callback_errors_contained (m : Manager) (now : Int)
    (normalized : String) (b : Binding) (c : Callback)
    (hb : m.hotkeys.lookup normalized = some b)
    (hcb : b.callback = .user c) (hr : c.raises = true) :
    _execute_callback m now normalized = (m, ⟨[c.id], [b.combination]⟩, false) ∧
    (∀ (m2 : Manager) (tr : Trace) (k : Key) (tok : String) (cb2 : Callback),
      m2.armed = true → m2.ignoreNext = false → _key_to_token k = some tok →
      tok ≠ "esc" → m2.suffixSeqMap.lookup (m2.buffer ++ [tok]) = some cb2 →
      cb2.raises = true →
      chordStep m2 tr .press k =
        (_disarm m2, tr.append ⟨[cb2.id], [joinTokens (m2.buffer ++ [tok])]⟩)) ∧
    (dispatchAll twoMgr [(0, .press, .char 'q'), (5, .press, .char 'w')]).2
      = ⟨[7, 8], ["q"]⟩ := by
  refine ⟨?_, ?_, by decide⟩
  · simp [_execute_callback, hb, hcb, runUser, hr]
  · intro m2 tr k tok cb2 a1 a2 a3 a4 a5 a6
    rw [chordStep_exact m2 tr k tok cb2 a1 a2 a3 a4 a5]
    simp [a6]

/-- Claim C9, witness: the direct-binding leg at the registered raising
callback. -/
theorem c9_callback_errors_contained_witness :
    _execute_callback raiseMgr 0 "x"
      = (raiseMgr, ⟨[cbRaise.id], [raiseBinding.combination]⟩, false) :=
  (c9_callback_errors_contained raiseMgr 0 "x" raiseBinding cbRaise
    (by decide) rfl rfl).1

end StreamCompanion

/-- Claim C10: on every sequence of shared-interface calls
(`register_hotkey`, `unregister_hotkey`, `trigger`,
`registered_combinations`, `start`, `stop`) the two `HotkeyManager`
variants return the same results, raise the same errors, produce the
same callback invocations and logs, and leave the same binding-table
contents (up to the embedding of plain bindings into chord-capable
ones) and listener state. -/
theorem c10_variant_equivalence (ops : List Op) :
    (StreamCompanion.runOps StreamCompanion.Manager.init ops).2.1
      = (StreamAnimate.runOps StreamAnimate.Manager.init ops).2.1 ∧
    (StreamCompanion.runOps StreamCompanion.Manager.init ops).2.2
      = (StreamAnimate.runOps StreamAnimate.Manager.init ops).2.2 ∧
    (StreamCompanion.runOps StreamCompanion.Manager.init ops).1.hotkeys
      = (StreamAnimate.runOps StreamAnimate.Manager.init ops).1.hotkeys.map
          (fun p => (p.1, embedBinding p.2)) ∧
    (StreamCompanion.runOps StreamCompanion.Manager.init ops).1.listener
      = (StreamAnimate.runOps StreamAnimate.Manager.init ops).1.listener := by
  have h := runOps_rel ops StreamAnimate.Manager.init
    StreamCompanion.Manager.init ⟨rfl, rfl⟩
  exact ⟨h.2.1, h.2.2, h.1.2, h.1.1⟩
